import Mathlib

/-!
# Verification of the Notion→Slack reminder pipeline

Shallow embedding of `src/notion_slack_reminder.py`: the assignee-resolution
and mention-building pipeline (name normalization, polymorphic assignee
extraction, directory indexing, personal-URL resolution, mention building).

Python strings are modelled as Lean `String`s manipulated through their
character lists.  Python `str.lower()` is modelled character-wise by the
ASCII case mapping, which agrees with Python on every character this
program's data contains (ASCII letters, kana, CJK).  Python dicts are
modelled as association lists with Python's semantics (first-match lookup
for uniquely-keyed maps, last-write-wins on comprehension collisions).
The remote Slack email lookup is a parameter: a pure oracle
`String → Option String` for the pure pipeline, and a transport function
returning `Except ε` for the exception-sensitive analysis, mirroring the
fact that `requests.get` may raise.
-/

namespace NotionSlack

/-- The characters removed by `normalize_name`: ASCII space, full-width
space (U+3000), horizontal tab, newline — the regex class `[ 　\t\n]`. -/
def isNormSpace (c : Char) : Bool :=
  c = ' ' || c = '　' || c = '\t' || c = '\n'

/-- Character-wise model of Python `str.lower()` (ASCII case mapping;
non-ASCII characters, in particular kana and CJK, are unchanged, exactly as
in Python). -/
def lowerChar (c : Char) : Char :=
  if 65 ≤ c.toNat ∧ c.toNat ≤ 90 then Char.ofNat (c.toNat + 32) else c

/-- `normalize_name` as (re)defined last in the source (the regex version,
which shadows the earlier replace-chain version):
`re.sub(r"[ 　\t\n]", "", s).lower()`, with the `if not s: return ""`
guard. -/
def normalize_name (s : String) : String :=
  if s = "" then ""
  else String.mk (((s.toList).filter (fun c => !isNormSpace c)).map lowerChar)

/-- The earlier definition of `normalize_name` (lines 73–84): the chain
`s.replace(" ","").replace("　","").replace("\t","").replace("\n","").lower()`
behind the same emptiness guard. -/
def normalize_name_v1 (s : String) : String :=
  if s = "" then ""
  else String.mk
    (((((s.toList).filter (fun c => c ≠ ' ')).filter
        (fun c => c ≠ '　')).filter
        (fun c => c ≠ '\t')).filter
        (fun c => c ≠ '\n') |>.map lowerChar)

/-- Characters stripped by Python `str.strip()` on this program's data
(ASCII whitespace and the full-width space). -/
def isPyWs (c : Char) : Bool :=
  c = ' ' || c = '\t' || c = '\n' || c = '\r' ||
  c = '\x0b' || c = '\x0c' || c = '　'

/-- Python `str.strip()`: drop leading and trailing whitespace. -/
def pyStrip (s : String) : String :=
  String.mk ((((s.toList).dropWhile isPyWs).reverse.dropWhile isPyWs).reverse)

/-- The delimiter class of `re.split(r"[、・,/／\n\r]+", …)`. -/
def isDelim (c : Char) : Bool :=
  c = '、' || c = '・' || c = ',' || c = '/' || c = '／' || c = '\n' || c = '\r'

mutual

/-- `re.split` with a `[class]+` pattern, segment-collection state:
collect the current segment until a delimiter run starts. -/
def splitRunsGo (cur : List Char) : List Char → List (List Char)
  | [] => [cur.reverse]
  | c :: rest =>
    if isDelim c then cur.reverse :: skipRun rest
    else splitRunsGo (c :: cur) rest

/-- `re.split` with a `[class]+` pattern, delimiter-run state: consume the
rest of the run, then start a fresh segment. -/
def skipRun : List Char → List (List Char)
  | [] => [[]]
  | c :: rest =>
    if isDelim c then skipRun rest
    else splitRunsGo [c] rest

end

/-- `re.split(r"[、・,/／\n\r]+", s)`: segments between maximal delimiter
runs, including empty boundary segments. -/
def pySplitDelims (s : String) : List String :=
  (splitRunsGo [] s.toList).map String.mk

/-- First-match association-list lookup (Python `dict.get` for a map whose
keys are unique). -/
def lookupA (m : List (String × String)) (k : String) : Option String :=
  match m with
  | [] => none
  | (k', v) :: rest => if k' = k then some v else lookupA rest k

/-- Python dict assignment `d[k] = v`: overwrite in place if the key is
present, else append. -/
def dictSet (d : List (String × String)) (k v : String) :
    List (String × String) :=
  if (d.map Prod.fst).contains k then
    d.map (fun p => if p.1 = k then (k, v) else p)
  else d ++ [(k, v)]

/-! ## Notion page model -/

/-- A person object inside a `people` property.  Python reads
`p.get("name") or ""` and `(p.get("person") or {}).get("email") or ""`,
collapsing `None` and `""`; we model both fields as strings with `""` for
absent. -/
structure NotionPerson where
  name : String
  email : String
deriving DecidableEq, Repr

/-- A Notion property value, tagged by the discriminator the API's `type`
field carries. -/
inductive NotionProp where
  | people (ppl : List NotionPerson)
  | richText (texts : List String)
  | select (name : String)
  | multiSelect (names : List String)
deriving DecidableEq, Repr

/-- The discriminator string `prop.get("type")`. -/
def NotionProp.type : NotionProp → String
  | .people _ => "people"
  | .richText _ => "rich_text"
  | .select _ => "select"
  | .multiSelect _ => "multi_select"

/-- Payload of the `people` key (`prop.get("people", [])`; absent on other
shapes). -/
def NotionProp.peopleList : NotionProp → List NotionPerson
  | .people ppl => ppl
  | _ => []

/-- Payload of the `rich_text` key as the `plain_text` of each run
(`prop.get("rich_text", [])`; absent on other shapes). -/
def NotionProp.richTextList : NotionProp → List String
  | .richText ts => ts
  | _ => []

/-- A Notion page: its `properties` dict, as an association list. -/
structure Page where
  props : List (String × NotionProp)
deriving DecidableEq, Repr

/-- `page["properties"][prop]`, returning `none` on `KeyError`. -/
def Page.getProp (page : Page) (prop : String) : Option NotionProp :=
  match page.props.find? (fun p => p.1 = prop) with
  | some p => some p.2
  | none => none

/-! ## Extractors -/

/-- `extract_people` (lines 127–139): read
`page["properties"][prop]["people"]` and append `(name, email)` for every
entry; a `KeyError` (missing property, or a property without a `people`
key) yields `[]`. -/
def extract_people (page : Page) (prop : String) :
    List (String × String) :=
  match page.getProp prop with
  | some (.people ppl) => ppl.foldl (fun out p => out ++ [(p.name, p.email)]) []
  | _ => []

/-- `extract_slackid_fallback` (lines 141–150): over the property's
`rich_text` runs, strip each `plain_text` and keep it when it starts with
`"U"` and is at least 8 characters long; `KeyError` yields `[]`. -/
def extract_slackid_fallback (page : Page) : List String :=
  match page.getProp "SlackID" with
  | some (.richText ts) =>
    ts.foldl (fun ids r =>
      let text := pyStrip r
      if (['U'].isPrefixOf text.toList) ∧ text.length ≥ 8 then ids ++ [text]
      else ids) []
  | _ => []

/-- `extract_assignees` (lines 333–356): dispatch on the property's `type`
discriminator; `people` keeps non-empty names stripped; `rich_text` joins
the runs, strips, splits on delimiter runs, strips segments and drops empty
ones; every other shape (and a missing property) yields `[]`. -/
def extract_assignees (page : Page) (prop_name : String) : List String :=
  match page.getProp prop_name with
  | none => []
  | some prop =>
    if prop.type = "people" then
      let names := (prop.peopleList.filter (fun p => p.name ≠ "")).map
        (fun p => pyStrip p.name)
      names.filter (fun n => n ≠ "")
    else if prop.type = "rich_text" then
      let rt := pyStrip (String.join prop.richTextList)
      if rt = "" then []
      else ((pySplitDelims rt).map pyStrip).filter (fun p => p ≠ "")
    else []

/-! ## Directory index -/

/-- A Slack directory entry: `u.get("id")` and the two candidate profile
names `profile.real_name`, `profile.display_name` (absent collapsed to
`""`, as `prof.get(…, "")` does). -/
structure SlackUser where
  id : String
  real_name : String
  display_name : String
deriving DecidableEq, Repr

/-- The body of the inner loop of `build_name_index`: insert
`normalize_name(n) -> uid` only when the key is non-empty and not already
present. -/
def nameInsStep (uid : String) (idx : List (String × String)) (n : String) :
    List (String × String) :=
  let key := normalize_name n
  if key ≠ "" ∧ lookupA idx key = none then idx ++ [(key, uid)] else idx

/-- The body of the outer loop of `build_name_index`: index one user by its
candidate names `[real_name, display_name]`, in that order. -/
def userIndexStep (idx : List (String × String)) (u : SlackUser) :
    List (String × String) :=
  [u.real_name, u.display_name].foldl (nameInsStep u.id) idx

/-- `build_name_index` (lines 205–222): for each user, for each candidate
name (real name first, then display name), insert
`normalize_name(name) -> id` only when the key is non-empty and not
already present. -/
def build_name_index (users : List SlackUser) : List (String × String) :=
  users.foldl userIndexStep []

/-! ## Personal-URL resolution -/

/-- The dict comprehension
`{normalize_name(k): v for k, v in PERSON_URL_MAP.items() if v}`:
entries with an empty URL are dropped; a later entry with the same
normalized key overwrites (Python dict semantics). -/
def buildUrlIdx (personUrlMap : List (String × String)) :
    List (String × String) :=
  personUrlMap.foldl (fun d kv =>
    if kv.2 ≠ "" then dictSet d (normalize_name kv.1) kv.2 else d) []

/-- `resolve_person_urls` (lines 386–395): look each name up in the
normalized index and append the URL when found, non-empty and not already
collected. -/
def resolve_person_urls (personUrlMap : List (String × String))
    (names : List String) : List String :=
  let idx := buildUrlIdx personUrlMap
  names.foldl (fun urls n =>
    match lookupA idx (normalize_name n) with
    | some url => if url ≠ "" ∧ url ∉ urls then urls ++ [url] else urls
    | none => urls) []

/-! ## Mention building -/

/-- The fixed "unassigned" placeholder `（担当者未設定）`. -/
def UNASSIGNED : String := "（担当者未設定）"

/-- State threaded through the first (`name`) pass of `build_mentions`:
display-name parts, mention ids, the `seen` set (kept as an insertion-order
list), and the matched personal URLs. -/
structure MState where
  displays : List String
  mentions : List String
  seen : List String
  urls : List String
deriving DecidableEq, Repr

/-- One iteration of the name pass (lines 245–257): append the display
part; resolve `normalize_name(name)` in the directory index and append the
id when truthy and unseen; scan the URL map for a normalized name match and
append the URL when truthy and new. -/
def phase1Step (nameIndex urlMap : List (String × String))
    (st : MState) (ref : String × String) : MState :=
  let (name, email) := ref
  let st := { st with
    displays := st.displays ++
      [if name ≠ "" then name else if email ≠ "" then email else UNASSIGNED] }
  let key := normalize_name name
  let st :=
    match lookupA nameIndex key with
    | some uid =>
      if uid ≠ "" ∧ uid ∉ st.seen then
        { st with mentions := st.mentions ++ [uid], seen := st.seen ++ [uid] }
      else st
    | none => st
  if name ≠ "" then
    { st with urls := urlMap.foldl (fun us tu =>
        if normalize_name tu.1 = key ∧ tu.2 ≠ "" ∧ tu.2 ∉ us
        then us ++ [tu.2] else us) st.urls }
  else st

/-- One iteration of the email pass (lines 260–265) over the
`(mentions, seen)` state, with a pure lookup oracle standing for
`slack_lookup_user_id_by_email`. -/
def phase2Step (lookup : String → Option String)
    (st : List String × List String) (ref : String × String) :
    List String × List String :=
  if ref.2 ≠ "" then
    match lookup ref.2 with
    | some uid =>
      if uid ≠ "" ∧ uid ∉ st.2 then (st.1 ++ [uid], st.2 ++ [uid]) else st
    | none => st
  else st

/-- One iteration of the fallback-id pass (lines 268–271). -/
def phase3Step (st : List String × List String) (uid : String) :
    List String × List String :=
  if uid ∉ st.2 then (st.1 ++ [uid], st.2 ++ [uid]) else st

/-- `build_mentions` (lines 225–273) with the remote email lookup as a pure
oracle: name pass, then email pass, then fallback-id pass, then the label
join `"、".join([n for n in display_names if n]) or "（担当者未設定）"`. -/
def build_mentions (urlMap : List (String × String))
    (lookup : String → Option String) (page : Page)
    (nameIndex : List (String × String)) :
    String × List String × List String :=
  let assigned := extract_people page "実施責任者"
  let fallback_ids := extract_slackid_fallback page
  let st1 := assigned.foldl (phase1Step nameIndex urlMap) ⟨[], [], [], []⟩
  let st2 := assigned.foldl (phase2Step lookup) (st1.mentions, st1.seen)
  let st3 := fallback_ids.foldl phase3Step st2
  let label := String.intercalate "、" (st1.displays.filter (fun n => n ≠ ""))
  ((if label ≠ "" then label else UNASSIGNED), st3.1, st1.urls)

/-! ## Exception-sensitive model of the email pass

`slack_lookup_user_id_by_email` calls `requests.get` with no exception
handler, so a transport-level failure propagates out of `build_mentions`.
We model the transport as `String → Except ε SlackResp` and the pass in the
`Except` monad. -/

/-- The decoded JSON of `users.lookupByEmail`: the `ok` flag and (when ok)
`data["user"]["id"]`. -/
structure SlackResp where
  ok : Bool
  userId : String
deriving DecidableEq, Repr

/-- `slack_lookup_user_id_by_email` (lines 176–184): no remote call for an
empty email; otherwise the transport may raise (`Except.error`); an `ok`
response yields the user id, a non-`ok` response yields `None`. -/
def slack_lookup_user_id_by_email {ε : Type}
    (transport : String → Except ε SlackResp) (email : String) :
    Except ε (Option String) :=
  if email = "" then .ok none
  else
    match transport email with
    | .error e => .error e
    | .ok data => if data.ok then .ok (some data.userId) else .ok none

/-- One iteration of the email pass in the `Except` monad. -/
def phase2StepE {ε : Type} (lookup : String → Except ε (Option String))
    (st : List String × List String) (ref : String × String) :
    Except ε (List String × List String) :=
  if ref.2 ≠ "" then
    match lookup ref.2 with
    | .error e => .error e
    | .ok (some uid) =>
      .ok (if uid ≠ "" ∧ uid ∉ st.2 then (st.1 ++ [uid], st.2 ++ [uid]) else st)
    | .ok none => .ok st
  else .ok st

/-- `build_mentions` with the real exception behaviour of the email pass:
any transport error raised by `slack_lookup_user_id_by_email` propagates
and aborts the build. -/
def build_mentionsE {ε : Type} (urlMap : List (String × String))
    (transport : String → Except ε SlackResp) (page : Page)
    (nameIndex : List (String × String)) :
    Except ε (String × List String × List String) :=
  let assigned := extract_people page "実施責任者"
  let fallback_ids := extract_slackid_fallback page
  let st1 := assigned.foldl (phase1Step nameIndex urlMap) ⟨[], [], [], []⟩
  do
    let st2 ← assigned.foldlM
      (phase2StepE (slack_lookup_user_id_by_email transport)) (st1.mentions, st1.seen)
    let st3 := fallback_ids.foldl phase3Step st2
    let label := String.intercalate "、" (st1.displays.filter (fun n => n ≠ ""))
    pure ((if label ≠ "" then label else UNASSIGNED), st3.1, st1.urls)

/-! ## Characterization of the mention-id accumulation (for claim C1)

`seen` tracks exactly the appended ids, so the three passes amount to a
single first-occurrence de-duplication over the concatenation of the
per-pass candidate id lists. -/

/-- Append `x` unless already present (first-occurrence de-duplication
step). -/
def dedupStep (acc : List String) (x : String) : List String :=
  if x ∈ acc then acc else acc ++ [x]

/-- First-occurrence de-duplication of a list, preserving discovery
order. -/
def dedupFirst (l : List String) : List String := l.foldl dedupStep []

/-- `dedupStep` acting simultaneously on the `(mention_ids, seen)` pair. -/
def addNew (st : List String × List String) (x : String) :
    List String × List String :=
  if x ∈ st.2 then st else (st.1 ++ [x], st.2 ++ [x])

/-- The candidate id the name pass produces for one ref: the directory hit
for the normalized name, kept only when truthy. -/
def nameCand (nameIndex : List (String × String)) (r : String × String) :
    Option String :=
  match lookupA nameIndex (normalize_name r.1) with
  | some uid => if uid ≠ "" then some uid else none
  | none => none

/-- All name-pass candidate ids, in ref order. -/
def namePassIds (nameIndex : List (String × String))
    (assigned : List (String × String)) : List String :=
  assigned.filterMap (nameCand nameIndex)

/-- The candidate id the email pass produces for one ref: the oracle's
answer for a non-empty email, kept only when truthy. -/
def emailCand (lookup : String → Option String) (r : String × String) :
    Option String :=
  if r.2 ≠ "" then
    match lookup r.2 with
    | some uid => if uid ≠ "" then some uid else none
    | none => none
  else none

/-- All email-pass candidate ids, in ref order. -/
def emailPassIds (lookup : String → Option String)
    (assigned : List (String × String)) : List String :=
  assigned.filterMap (emailCand lookup)

/-! ## Character-level lemmas -/

theorem toList_mk (l : List Char) : (String.mk l).toList = l := rfl

theorem char_toNat_ofNat (n : Nat) (h : n < 55296) : (Char.ofNat n).toNat = n := by
  simp only [Char.ofNat, Nat.isValidChar]
  rw [dif_pos (Or.inl h)]
  simp [Char.ofNatAux, Char.toNat, UInt32.toNat, BitVec.toNat_ofNatLt]

theorem lowerChar_def (c : Char) :
    lowerChar c =
      if 65 ≤ c.toNat ∧ c.toNat ≤ 90 then Char.ofNat (c.toNat + 32) else c := rfl

theorem lowerChar_toNat_of_upper (c : Char) (h : 65 ≤ c.toNat ∧ c.toNat ≤ 90) :
    (lowerChar c).toNat = c.toNat + 32 := by
  rw [lowerChar_def, if_pos h]
  exact char_toNat_ofNat _ (by omega)

theorem lowerChar_lowerChar (c : Char) : lowerChar (lowerChar c) = lowerChar c := by
  by_cases h : 65 ≤ c.toNat ∧ c.toNat ≤ 90
  · have hv := lowerChar_toNat_of_upper c h
    rw [lowerChar_def (lowerChar c), hv, if_neg (by omega)]
  · rw [lowerChar_def c, if_neg h, lowerChar_def c, if_neg h]

theorem isNormSpace_eq_false (c : Char) (h9 : c.toNat ≠ 9) (h10 : c.toNat ≠ 10)
    (h32 : c.toNat ≠ 32) (hfw : c.toNat ≠ 12288) : isNormSpace c = false := by
  simp only [isNormSpace, Bool.or_eq_false_iff, decide_eq_false_iff_not]
  refine ⟨⟨⟨fun hc => h32 ?_, fun hc => hfw ?_⟩, fun hc => h9 ?_⟩, fun hc => h10 ?_⟩ <;>
    rw [hc] <;> rfl

theorem isNormSpace_lowerChar (c : Char) :
    isNormSpace (lowerChar c) = isNormSpace c := by
  by_cases h : 65 ≤ c.toNat ∧ c.toNat ≤ 90
  · have hv := lowerChar_toNat_of_upper c h
    rw [isNormSpace_eq_false c (by omega) (by omega) (by omega) (by omega),
      isNormSpace_eq_false (lowerChar c) (by omega) (by omega) (by omega) (by omega)]
  · rw [lowerChar_def c, if_neg h]

/-! ## Claims C6 and C10: the name normalizer -/

/-- C6: `normalize_name` is idempotent: for every string `s`,
`normalize_name (normalize_name s) = normalize_name s`. -/
theorem normalize_name_idempotent (s : String) :
    normalize_name (normalize_name s) = normalize_name s := by
  unfold normalize_name
  by_cases hs : s = ""
  · simp [hs]
  · rw [if_neg hs]
    by_cases h2 :
        String.mk ((s.toList.filter (fun c => !isNormSpace c)).map lowerChar) = ""
    · rw [if_pos h2]
      exact h2.symm
    · rw [if_neg h2]
      congr 1
      rw [toList_mk, List.filter_map,
        List.filter_eq_self.mpr (fun a ha => by
          have hpa := List.of_mem_filter ha
          simpa [Function.comp, isNormSpace_lowerChar] using hpa),
        List.map_map]
      exact List.map_congr_left (fun a _ => lowerChar_lowerChar a)

/-- C10: the two source definitions of `normalize_name` (the replace-chain
version at lines 73–84 and the regex version at lines 375–377 that shadows
it) compute the same function on every input string. -/
theorem normalize_name_versions_agree (s : String) :
    normalize_name_v1 s = normalize_name s := by
  unfold normalize_name normalize_name_v1
  by_cases hs : s = ""
  · simp [hs]
  · rw [if_neg hs, if_neg hs]
    congr 1
    rw [List.filter_filter, List.filter_filter, List.filter_filter]
    congr 1
    exact List.filter_congr (fun a _ => by
      by_cases h1 : a = ' ' <;> by_cases h2 : a = '　' <;>
        by_cases h3 : a = '\t' <;> by_cases h4 : a = '\n' <;>
        simp [isNormSpace, h1, h2, h3, h4])

/-! ## Association-list and fold lemmas -/

theorem lookupA_cons (k' v' : String) (rest : List (String × String)) (k : String) :
    lookupA ((k', v') :: rest) k = if k' = k then some v' else lookupA rest k := rfl

theorem lookupA_append_left (idx ext : List (String × String)) (k v : String)
    (h : lookupA idx k = some v) : lookupA (idx ++ ext) k = some v := by
  induction idx with
  | nil => simp [lookupA] at h
  | cons p rest ih =>
    obtain ⟨k', v'⟩ := p
    rw [List.cons_append, lookupA_cons]
    rw [lookupA_cons] at h
    by_cases hk : k' = k
    · rwa [if_pos hk] at h ⊢
    · rw [if_neg hk] at h ⊢
      exact ih h

theorem foldl_extends {α : Type}
    (step : List (String × String) → α → List (String × String))
    (hstep : ∀ idx a, ∃ ext, step idx a = idx ++ ext) (l : List α) :
    ∀ idx, ∃ ext, l.foldl step idx = idx ++ ext := by
  induction l with
  | nil => exact fun idx => ⟨[], by simp⟩
  | cons a rest ih =>
    intro idx
    obtain ⟨e1, h1⟩ := hstep idx a
    obtain ⟨e2, h2⟩ := ih (step idx a)
    exact ⟨e1 ++ e2, by rw [List.foldl_cons, h2, h1, List.append_assoc]⟩

theorem foldl_invariant {α : Type} {P : List (String × String) → Prop}
    (step : List (String × String) → α → List (String × String))
    (hstep : ∀ idx a, P idx → P (step idx a)) (l : List α) :
    ∀ idx, P idx → P (l.foldl step idx) := by
  induction l with
  | nil => exact fun idx h => h
  | cons a rest ih => exact fun idx h => ih (step idx a) (hstep idx a h)

theorem nameInsStep_extends (uid : String) (idx : List (String × String))
    (n : String) : ∃ ext, nameInsStep uid idx n = idx ++ ext := by
  unfold nameInsStep
  by_cases h : normalize_name n ≠ "" ∧ lookupA idx (normalize_name n) = none
  · exact ⟨[(normalize_name n, uid)], by rw [if_pos h]⟩
  · exact ⟨[], by rw [if_neg h, List.append_nil]⟩

theorem userIndexStep_extends (idx : List (String × String)) (u : SlackUser) :
    ∃ ext, userIndexStep idx u = idx ++ ext :=
  foldl_extends (nameInsStep u.id) (nameInsStep_extends u.id) _ idx

/-! ## Claim C7: the directory index -/

/-- C7: `build_name_index` never records an empty key, and a colliding key
keeps the first-inserted user id: a binding visible after indexing a
directory prefix is still the binding in the index of any extension of
that prefix (later same-key entries are silently ignored). -/
theorem build_name_index_no_empty_key_first_wins
    (users₁ users₂ : List SlackUser) (k v : String) :
    (∀ kv ∈ build_name_index users₁, kv.1 ≠ "") ∧
    (lookupA (build_name_index users₁) k = some v →
      lookupA (build_name_index (users₁ ++ users₂)) k = some v) := by
  constructor
  · have base : ∀ kv ∈ ([] : List (String × String)), kv.1 ≠ "" := by simp
    refine foldl_invariant (P := fun idx => ∀ kv ∈ idx, kv.1 ≠ "")
      userIndexStep ?_ users₁ [] base
    intro idx u hP
    refine foldl_invariant (P := fun idx => ∀ kv ∈ idx, kv.1 ≠ "")
      (nameInsStep u.id) ?_ _ idx hP
    intro idx' n hP'
    unfold nameInsStep
    by_cases h : normalize_name n ≠ "" ∧ lookupA idx' (normalize_name n) = none
    · rw [if_pos h]
      intro kv hkv
      rcases List.mem_append.mp hkv with hkv | hkv
      · exact hP' kv hkv
      · rcases List.mem_singleton.mp hkv with rfl
        exact h.1
    · rw [if_neg h]
      exact hP'
  · intro h
    unfold build_name_index at h ⊢
    rw [List.foldl_append]
    obtain ⟨ext, hext⟩ :=
      foldl_extends userIndexStep userIndexStep_extends users₂
        (users₁.foldl userIndexStep [])
    rw [hext]
    exact lookupA_append_left _ _ _ _ h

/-- Witness for C7: a two-user directory whose entries collide on the
normalized key `"浅井"`; the first user's id is retained. -/
theorem build_name_index_no_empty_key_first_wins_witness :
    lookupA (build_name_index [⟨"U1", "浅井", ""⟩]) "浅井" = some "U1" ∧
    lookupA (build_name_index ([⟨"U1", "浅井", ""⟩] ++ [⟨"U2", "浅井", ""⟩]))
      "浅井" = some "U1" :=
  ⟨by decide,
    (build_name_index_no_empty_key_first_wins
      [⟨"U1", "浅井", ""⟩] [⟨"U2", "浅井", ""⟩] "浅井" "U1").2 (by decide)⟩

/-! ## Claim C3: the person-object extractor -/

theorem foldl_append_map {α β : Type} (f : α → β) (l : List α) (out : List β) :
    l.foldl (fun o a => o ++ [f a]) out = out ++ l.map f := by
  induction l generalizing out with
  | nil => simp
  | cons a rest ih => simp [ih]

theorem getProp_cons_self (prop : String) (x : NotionProp)
    (rest : List (String × NotionProp)) :
    (Page.mk ((prop, x) :: rest)).getProp prop = some x := by
  unfold Page.getProp
  rw [List.find?_cons_of_pos _ (by simp)]

/-- C3 counterexample: a person entry with no name and no email is kept by
`extract_people` as `("", "")`, not dropped as the claim states. -/
theorem extract_people_keeps_nameless_emailless :
    extract_people ⟨[("実施責任者", NotionProp.people [⟨"", ""⟩])]⟩ "実施責任者"
        = [("", "")] ∧
    ([("", "")] : List (String × String)) ≠ [] := by
  exact ⟨by decide, by decide⟩

/-- C3 amended: `extract_people` returns one `(name, email)` pair per
person entry, in list order, keeping every entry — including entries with
neither name nor email (absent fields become empty strings); no entry is
ever dropped. -/
theorem extract_people_one_pair_per_entry (ppl : List NotionPerson)
    (rest : List (String × NotionProp)) (prop : String) :
    extract_people ⟨(prop, NotionProp.people ppl) :: rest⟩ prop =
      ppl.map (fun p => (p.name, p.email)) := by
  unfold extract_people
  rw [getProp_cons_self]
  exact foldl_append_map _ ppl []

/-! ## Claim C4: selected-option shapes -/

/-- C4 counterexample: on a multi-select assignee field with option
`"佐藤"`, `extract_assignees` returns `[]`, not the option names the claim
requires. -/
theorem extract_assignees_multiselect_dropped :
    extract_assignees ⟨[("実施責任者", NotionProp.multiSelect ["佐藤"])]⟩
        "実施責任者" = [] ∧
    ([] : List String) ≠ ["佐藤"] := by
  exact ⟨by decide, by decide⟩

/-- C4 amended: `extract_assignees` handles only the `people` and
`rich_text` discriminators; a single-select or multi-select assignee field
always yields the empty sequence, whatever its option names are. -/
theorem extract_assignees_select_shapes_empty (s : String) (l : List String)
    (rest₁ rest₂ : List (String × NotionProp)) (prop : String) :
    extract_assignees ⟨(prop, NotionProp.select s) :: rest₁⟩ prop = [] ∧
    extract_assignees ⟨(prop, NotionProp.multiSelect l) :: rest₂⟩ prop = [] := by
  constructor <;>
    simp [extract_assignees, getProp_cons_self, NotionProp.type]

/-! ## Claim C2: empty assignee plus literal fallback ids -/

/-- C2 counterexample: with an empty assignee field and a fallback column
whose literal text is `"U123"`, the pipeline yields `mentionIds = []` —
`extract_slackid_fallback` drops ids shorter than 8 characters — not
`["U123"]` as the claim states. -/
theorem pipeline_fallback_U123_dropped :
    build_mentions [] (fun _ => none)
        ⟨[("実施責任者", NotionProp.people []),
          ("SlackID", NotionProp.richText ["U123"])]⟩ []
      = ("（担当者未設定）", [], []) ∧
    ([] : List String) ≠ ["U123"] :=
  ⟨by decide, by decide⟩

/-- C2 amended: same end-to-end scenario with a fallback id long enough to
pass the extractor's `startswith("U") and len >= 8` filter: an empty
assignee field and literal fallback text `"U1234567"` yield the placeholder
label, `mentionIds = ["U1234567"]` and `urls = []` — for every URL map,
email oracle and directory index. -/
theorem pipeline_empty_assignee_fallback_id (urlMap : List (String × String))
    (lookup : String → Option String) (nameIndex : List (String × String)) :
    build_mentions urlMap lookup
        ⟨[("実施責任者", NotionProp.people []),
          ("SlackID", NotionProp.richText ["U1234567"])]⟩ nameIndex
      = ("（担当者未設定）", ["U1234567"], []) := rfl

/-! ## Claim C8: personal-URL resolution -/

theorem nodup_foldl_guarded {α : Type} (f : List String → α → List String)
    (hf : ∀ acc a, f acc a = acc ∨ ∃ x, x ∉ acc ∧ f acc a = acc ++ [x])
    (l : List α) : ∀ acc : List String, acc.Nodup → (l.foldl f acc).Nodup := by
  induction l with
  | nil => exact fun acc h => h
  | cons a rest ih =>
    intro acc h
    rw [List.foldl_cons]
    rcases hf acc a with heq | ⟨x, hx, heq⟩
    · rw [heq]; exact ih acc h
    · rw [heq]
      refine ih _ ?_
      rw [← List.concat_eq_append]
      exact List.Nodup.concat hx h

/-- C8 counterexample: `normalize_name` only strips whitespace and
lowercases — it performs no half-width-katakana folding — so the ref
`"ｹﾝﾞﾁ "` does not match the configured key `"けんぢ"` and
`resolve_person_urls` returns `[]`, not `["https://x"]`. -/
theorem resolve_person_urls_halfwidth_no_match :
    resolve_person_urls [("けんぢ", "https://x")] ["ｹﾝﾞﾁ "] = [] ∧
    ([] : List String) ≠ ["https://x"] :=
  ⟨by decide, by decide⟩

/-- C8 amended: with an input ref whose normalization does equal the
configured key (whitespace differences absorbed), the URL is returned
exactly once even when two input refs both match it; and
`resolve_person_urls` never returns duplicates. -/
theorem resolve_person_urls_match_once :
    resolve_person_urls [("けんぢ", "https://x")] ["けんぢ ", "けん　ぢ"]
      = ["https://x"] ∧
    ∀ (pm : List (String × String)) (ns : List String),
      (resolve_person_urls pm ns).Nodup := by
  refine ⟨by decide, fun pm ns => ?_⟩
  unfold resolve_person_urls
  refine nodup_foldl_guarded _ ?_ ns [] List.nodup_nil
  intro acc n
  cases h : lookupA (buildUrlIdx pm) (normalize_name n) with
  | none => exact Or.inl rfl
  | some url =>
    by_cases hu : url ≠ "" ∧ url ∉ acc
    · exact Or.inr ⟨url, hu.2, if_pos hu⟩
    · exact Or.inl (if_neg hu)

/-! ## Claim C9: failure semantics of the email pass -/

/-- C9 counterexample: a transport-level failure of the remote email
lookup is not swallowed — it propagates out of the email pass and aborts
the whole build, yielding an error instead of a mention result. -/
theorem email_lookup_transport_error_aborts :
    build_mentionsE (ε := String) [] (fun _ => .error "network down")
        ⟨[("実施責任者",
           NotionProp.people [⟨"山田", "a@example.com"⟩,
                              ⟨"佐藤", "b@example.com"⟩])]⟩ []
      = .error "network down" := rfl

theorem foldlM_phase2_ok {ε : Type} (resp : String → SlackResp)
    (assigned : List (String × String)) :
    ∀ st : List String × List String,
      assigned.foldlM
          (phase2StepE (ε := ε)
            (slack_lookup_user_id_by_email (fun e => .ok (resp e)))) st
        = .ok (assigned.foldl
            (phase2Step (fun e =>
              if (resp e).ok then some (resp e).userId else none)) st) := by
  induction assigned with
  | nil => intro st; rfl
  | cons r rest ih =>
    intro st
    rw [List.foldlM_cons, List.foldl_cons]
    have hstep :
        phase2StepE (ε := ε)
            (slack_lookup_user_id_by_email (fun e => .ok (resp e))) st r
          = .ok (phase2Step (fun e =>
              if (resp e).ok then some (resp e).userId else none) st r) := by
      unfold phase2StepE phase2Step slack_lookup_user_id_by_email
      by_cases he : r.2 ≠ ""
      · rw [if_pos he, if_pos he, if_neg (by simpa using he)]
        by_cases hok : (resp r.2).ok
        · simp [hok]
        · simp [hok]
      · rw [if_neg he, if_neg he]
    rw [hstep]
    exact ih _

/-- C9 amended: when the transport returns a response for every looked-up
email (no exception is raised), the build completes, and each response with
`ok = false` — an API-level lookup failure — degrades to a lookup miss for
that one ref while the email pass continues for the remaining refs: the
result equals the pure build whose oracle answers `none` exactly on the
non-`ok` responses.  A transport-level exception, by contrast, propagates
(see the counterexample). -/
theorem email_lookup_api_failure_degrades {ε : Type} (resp : String → SlackResp)
    (urlMap nameIndex : List (String × String)) (page : Page) :
    build_mentionsE (ε := ε) urlMap (fun e => .ok (resp e)) page nameIndex
      = .ok (build_mentions urlMap
          (fun e => if (resp e).ok then some (resp e).userId else none)
          page nameIndex) := by
  unfold build_mentionsE build_mentions
  simp only [foldlM_phase2_ok]
  rfl

/-! ## Claim C1: de-duplication and first-discovery order of mention ids -/

theorem phase1Step_ms (nameIndex urlMap : List (String × String))
    (st : MState) (r : String × String) :
    ((phase1Step nameIndex urlMap st r).mentions,
     (phase1Step nameIndex urlMap st r).seen)
      = (nameCand nameIndex r).elim (st.mentions, st.seen)
          (addNew (st.mentions, st.seen)) := by
  obtain ⟨name, email⟩ := r
  unfold phase1Step nameCand addNew
  cases h : lookupA nameIndex (normalize_name name) with
  | none =>
    simp only [h, Option.elim]
    by_cases hn : name = "" <;> simp [hn]
  | some uid =>
    simp only [h]
    by_cases hn : name = "" <;> by_cases hu : uid = "" <;>
      by_cases hs : uid ∈ st.seen <;> simp [hn, hu, hs]

theorem phase1_fold_ms (nameIndex urlMap : List (String × String))
    (assigned : List (String × String)) :
    ∀ st : MState,
      ((assigned.foldl (phase1Step nameIndex urlMap) st).mentions,
       (assigned.foldl (phase1Step nameIndex urlMap) st).seen)
        = (namePassIds nameIndex assigned).foldl addNew
            (st.mentions, st.seen) := by
  induction assigned with
  | nil => intro st; rfl
  | cons r rest ih =>
    intro st
    rw [List.foldl_cons]
    have hstep := phase1Step_ms nameIndex urlMap st r
    unfold namePassIds at ih ⊢
    rw [List.filterMap_cons]
    cases hc : nameCand nameIndex r with
    | none =>
      rw [hc] at hstep
      simp only [Option.elim] at hstep
      rw [ih (phase1Step nameIndex urlMap st r), hstep]
    | some uid =>
      rw [hc] at hstep
      simp only [Option.elim] at hstep
      rw [ih (phase1Step nameIndex urlMap st r), hstep, List.foldl_cons]

theorem phase2Step_eq (lookup : String → Option String)
    (st : List String × List String) (r : String × String) :
    phase2Step lookup st r = (emailCand lookup r).elim st (addNew st) := by
  unfold phase2Step emailCand addNew
  by_cases he : r.2 ≠ ""
  · rw [if_pos he, if_pos he]
    cases h : lookup r.2 with
    | none => rfl
    | some uid =>
      by_cases hu : uid = "" <;> by_cases hs : uid ∈ st.2 <;> simp [hu, hs]
  · rw [if_neg he, if_neg he]
    rfl

theorem phase2_fold (lookup : String → Option String)
    (assigned : List (String × String)) :
    ∀ st : List String × List String,
      assigned.foldl (phase2Step lookup) st
        = (emailPassIds lookup assigned).foldl addNew st := by
  induction assigned with
  | nil => intro st; rfl
  | cons r rest ih =>
    intro st
    rw [List.foldl_cons, phase2Step_eq]
    unfold emailPassIds at ih ⊢
    rw [List.filterMap_cons]
    cases hc : emailCand lookup r with
    | none => exact ih st
    | some uid => rw [List.foldl_cons]; exact ih (addNew st uid)

theorem phase3Step_eq_addNew : phase3Step = addNew := by
  funext st uid
  unfold phase3Step addNew
  by_cases h : uid ∈ st.2
  · rw [if_neg (not_not_intro h), if_pos h]
  · rw [if_pos h, if_neg h]

theorem foldl_addNew_diag (l : List String) :
    ∀ m : List String,
      l.foldl addNew (m, m) = (l.foldl dedupStep m, l.foldl dedupStep m) := by
  induction l with
  | nil => intro m; rfl
  | cons x rest ih =>
    intro m
    rw [List.foldl_cons, List.foldl_cons]
    have hx : addNew (m, m) x = (dedupStep m x, dedupStep m x) := by
      unfold addNew dedupStep
      by_cases h : x ∈ m
      · rw [if_pos h, if_pos h]
      · rw [if_neg h, if_neg h]
    rw [hx, ih]

theorem dedupStep_guarded (acc : List String) (x : String) :
    dedupStep acc x = acc ∨ ∃ y, y ∉ acc ∧ dedupStep acc x = acc ++ [y] := by
  unfold dedupStep
  by_cases h : x ∈ acc
  · exact Or.inl (if_pos h)
  · exact Or.inr ⟨x, h, if_neg h⟩

/-- C1: for every page, directory index, URL map and email oracle,
`build_mentions` returns a `mentionIds` list equal to the first-occurrence
de-duplication of the name-pass candidates, followed by the email-pass
candidates, followed by the fallback ids — first-discovery order across
the three phases — and that list has no duplicate elements, so an id
already appended during the name pass is never appended again by a later
email match or fallback id. -/
theorem build_mentions_ids_nodup_first_discovery
    (urlMap nameIndex : List (String × String))
    (lookup : String → Option String) (page : Page) :
    (build_mentions urlMap lookup page nameIndex).2.1 =
      dedupFirst (namePassIds nameIndex (extract_people page "実施責任者")
        ++ emailPassIds lookup (extract_people page "実施責任者")
        ++ extract_slackid_fallback page) ∧
    (build_mentions urlMap lookup page nameIndex).2.1.Nodup := by
  have hkey : (build_mentions urlMap lookup page nameIndex).2.1 =
      dedupFirst (namePassIds nameIndex (extract_people page "実施責任者")
        ++ emailPassIds lookup (extract_people page "実施責任者")
        ++ extract_slackid_fallback page) := by
    have hproj : (build_mentions urlMap lookup page nameIndex).2.1
        = ((extract_slackid_fallback page).foldl phase3Step
            ((extract_people page "実施責任者").foldl (phase2Step lookup)
              (((extract_people page "実施責任者").foldl
                  (phase1Step nameIndex urlMap) ⟨[], [], [], []⟩).mentions,
               ((extract_people page "実施責任者").foldl
                  (phase1Step nameIndex urlMap) ⟨[], [], [], []⟩).seen))).1 :=
      rfl
    have hms : (((extract_people page "実施責任者").foldl
            (phase1Step nameIndex urlMap) ⟨[], [], [], []⟩).mentions,
          ((extract_people page "実施責任者").foldl
            (phase1Step nameIndex urlMap) ⟨[], [], [], []⟩).seen)
        = (namePassIds nameIndex (extract_people page "実施責任者")).foldl
            addNew ([], []) :=
      phase1_fold_ms nameIndex urlMap (extract_people page "実施責任者")
        ⟨[], [], [], []⟩
    rw [hproj, hms, foldl_addNew_diag, phase2_fold, foldl_addNew_diag,
      phase3Step_eq_addNew, foldl_addNew_diag]
    unfold dedupFirst
    rw [List.foldl_append, List.foldl_append]
  refine ⟨hkey, ?_⟩
  rw [hkey]
  exact nodup_foldl_guarded dedupStep dedupStep_guarded _ [] List.nodup_nil

/-! ## Claim C5: free-text splitting -/

theorem length_dropWhile_le (p : Char → Bool) (l : List Char) :
    (l.dropWhile p).length ≤ l.length := by
  induction l with
  | nil => exact Nat.le_refl 0
  | cons a t ih =>
    rw [List.dropWhile_cons]
    by_cases h : p a
    · simp only [h, if_true]
      exact Nat.le_succ_of_le ih
    · simp [h]

theorem dropWhile_dropWhile (p : Char → Bool) (l : List Char) :
    (l.dropWhile p).dropWhile p = l.dropWhile p := by
  induction l with
  | nil => rfl
  | cons a t ih =>
    rw [List.dropWhile_cons]
    by_cases h : p a
    · simp [h, ih]
    · simp [h, List.dropWhile_cons]

theorem mem_dropWhile (p : Char → Bool) (l : List Char) (c : Char)
    (h : c ∈ l.dropWhile p) : c ∈ l := by
  induction l with
  | nil => simp at h
  | cons a t ih =>
    rw [List.dropWhile_cons] at h
    by_cases hp : p a
    · rw [if_pos hp] at h
      exact List.mem_cons_of_mem a (ih h)
    · rw [if_neg hp] at h
      exact h

theorem mem_pyStrip (s : String) (c : Char) (h : c ∈ (pyStrip s).toList) :
    c ∈ s.toList := by
  unfold pyStrip at h
  rw [toList_mk, List.mem_reverse] at h
  have h2 := mem_dropWhile _ _ _ h
  rw [List.mem_reverse] at h2
  exact mem_dropWhile _ _ _ h2

theorem dropWhile_eq_self_of_prefix (p : Char → Bool) (C t A : List Char)
    (hA : A = C ++ t) (hself : A.dropWhile p = A) : C.dropWhile p = C := by
  cases C with
  | nil => rfl
  | cons c C' =>
    rw [List.dropWhile_cons]
    by_cases hp : p c
    · exfalso
      subst hA
      rw [List.cons_append, List.dropWhile_cons, if_pos hp] at hself
      have hlen := congrArg List.length hself
      have hle := length_dropWhile_le p (C' ++ t)
      simp only [List.length_cons] at hlen
      omega
    · rw [if_neg hp]

theorem pyStrip_idem (s : String) : pyStrip (pyStrip s) = pyStrip s := by
  unfold pyStrip
  rw [toList_mk]
  have hidem := dropWhile_dropWhile isPyWs s.toList
  have hsplit : s.toList.dropWhile isPyWs
      = ((s.toList.dropWhile isPyWs).reverse.dropWhile isPyWs).reverse
        ++ ((s.toList.dropWhile isPyWs).reverse.takeWhile isPyWs).reverse := by
    conv_lhs => rw [← List.reverse_reverse (s.toList.dropWhile isPyWs),
      ← List.takeWhile_append_dropWhile isPyWs
        (s.toList.dropWhile isPyWs).reverse]
    rw [List.reverse_append]
  have hR := dropWhile_eq_self_of_prefix isPyWs
    ((s.toList.dropWhile isPyWs).reverse.dropWhile isPyWs).reverse
    ((s.toList.dropWhile isPyWs).reverse.takeWhile isPyWs).reverse
    (s.toList.dropWhile isPyWs) hsplit hidem
  rw [hR, List.reverse_reverse, dropWhile_dropWhile]

theorem split_segments_nondelim (n : Nat) :
    ∀ l : List Char, l.length ≤ n →
      (∀ cur, (∀ c ∈ cur, isDelim c = false) →
        ∀ seg ∈ splitRunsGo cur l, ∀ c ∈ seg, isDelim c = false) ∧
      (∀ seg ∈ skipRun l, ∀ c ∈ seg, isDelim c = false) := by
  induction n with
  | zero =>
    intro l hl
    have hnil : l = [] := List.eq_nil_of_length_eq_zero (Nat.le_zero.mp hl)
    subst hnil
    constructor
    · intro cur hcur seg hseg c hc
      simp only [splitRunsGo] at hseg
      rcases List.mem_singleton.mp hseg with rfl
      exact hcur c (List.mem_reverse.mp hc)
    · intro seg hseg c hc
      simp only [skipRun] at hseg
      rcases List.mem_singleton.mp hseg with rfl
      simp at hc
  | succ n ih =>
    intro l hl
    cases l with
    | nil => exact ih [] (by simp)
    | cons a rest =>
      have hrest : rest.length ≤ n := by
        rw [List.length_cons] at hl
        omega
      constructor
      · intro cur hcur seg hseg c hc
        by_cases hd : isDelim a
        · simp only [splitRunsGo, hd, if_true] at hseg
          rcases List.mem_cons.mp hseg with rfl | hseg
          · exact hcur c (List.mem_reverse.mp hc)
          · exact (ih rest hrest).2 seg hseg c hc
        · simp only [splitRunsGo, hd, if_false, Bool.false_eq_true] at hseg
          refine (ih rest hrest).1 (a :: cur) ?_ seg hseg c hc
          intro c' hc'
          rcases List.mem_cons.mp hc' with rfl | hc'
          · simpa using hd
          · exact hcur c' hc'
      · intro seg hseg c hc
        by_cases hd : isDelim a
        · simp only [skipRun, hd, if_true] at hseg
          exact (ih rest hrest).2 seg hseg c hc
        · simp only [skipRun, hd, if_false, Bool.false_eq_true] at hseg
          refine (ih rest hrest).1 [a] ?_ seg hseg c hc
          intro c' hc'
          rcases List.mem_singleton.mp hc' with rfl
          simpa using hd

theorem pySplitDelims_nondelim (s : String) (seg : String)
    (hseg : seg ∈ pySplitDelims s) (c : Char) (hc : c ∈ seg.toList) :
    isDelim c = false := by
  unfold pySplitDelims at hseg
  rcases List.mem_map.mp hseg with ⟨lseg, hl, rfl⟩
  rw [toList_mk] at hc
  exact (split_segments_nondelim s.toList.length s.toList (Nat.le_refl _)).1
    [] (by simp) lseg hl c hc

/-- C5: on a free-text (rich-text) assignee field the extractor splits the
joined text on runs of the delimiters `、` `・` `,` `/` `／` and line
breaks, trims each segment, drops empty segments and returns the survivors
in source order (the rich-text path carries no emails, so every survivor's
email is absent): the example `"山田太郎、鈴木一郎/佐藤花子"` yields exactly
`["山田太郎", "鈴木一郎", "佐藤花子"]`; in general every returned segment
is non-empty, already trimmed, and delimiter-free, and the output is an
order-preserving selection of the trimmed split segments. -/
theorem extract_assignees_free_text_split (ts : List String)
    (rest : List (String × NotionProp)) (prop : String) :
    extract_assignees
        ⟨[("実施責任者", NotionProp.richText ["山田太郎、鈴木一郎/佐藤花子"])]⟩
        "実施責任者"
      = ["山田太郎", "鈴木一郎", "佐藤花子"] ∧
    ((extract_assignees ⟨(prop, NotionProp.richText ts) :: rest⟩ prop).all
        (fun seg => seg ≠ "" && (pyStrip seg == seg)
          && seg.toList.all (fun c => !isDelim c))) = true ∧
    (extract_assignees ⟨(prop, NotionProp.richText ts) :: rest⟩ prop).Sublist
      ((pySplitDelims (pyStrip (String.join ts))).map pyStrip) := by
  have hred : extract_assignees ⟨(prop, NotionProp.richText ts) :: rest⟩ prop
      = (if pyStrip (String.join ts) = "" then []
         else ((pySplitDelims (pyStrip (String.join ts))).map pyStrip).filter
           (fun p => p ≠ "")) := by
    unfold extract_assignees
    rw [getProp_cons_self]
    dsimp only [NotionProp.type, NotionProp.richTextList]
    rw [if_neg (by decide), if_pos rfl]
  refine ⟨by decide, ?_, ?_⟩
  · rw [hred]
    by_cases hrt : pyStrip (String.join ts) = ""
    · rw [if_pos hrt]
      rfl
    · rw [if_neg hrt]
      rw [List.all_eq_true]
      intro seg hseg
      have hmem := List.mem_filter.mp hseg
      rcases List.mem_map.mp hmem.1 with ⟨x, hx, rfl⟩
      rw [Bool.and_eq_true, Bool.and_eq_true]
      refine ⟨⟨hmem.2, ?_⟩, ?_⟩
      · rw [beq_iff_eq]
        exact pyStrip_idem x
      · rw [List.all_eq_true]
        intro c hc
        have hcx := mem_pyStrip x c hc
        rw [Bool.not_eq_true']
        exact pySplitDelims_nondelim _ x hx c hcx
  · rw [hred]
    by_cases hrt : pyStrip (String.join ts) = ""
    · rw [if_pos hrt]
      exact List.nil_sublist _
    · rw [if_neg hrt]
      exact List.filter_sublist _

end NotionSlack
